import Mathlib


/-
Verification of the Project lifecycle logic of src/gns3/project.py.

The Project class is a thin asynchronous HTTP facade.  We embed it shallowly:

* Compute servers are abstract identifiers (naturals); the server registry's
  local server is passed explicitly as a parameter named L, embedding
  Servers.instance().localServer().
* Pure state (the fields set in Project.__init__) becomes the structure
  ProjectState.  Membership of the object in the class-level set
  Project._project_instances is tracked by the per-object flag inInstances.
* Network output and Qt signal emissions become an explicit list of Event
  values returned by each operation.
* Asynchronous callback delivery becomes a labelled transition system Sys /
  stepF / Reachable: user calls enqueue a PendingCreation (representing the
  functools closure built in _projectHTTPQuery) or a pending close, and
  separate actions deliver a response to the corresponding handler.
* Python's set is modelled as a duplicate-free list (addServer adds only if
  absent, List.erase removes); set.remove and _project_instances.remove raise
  KeyError on a missing element, so the handlers return the state as mutated
  up to the raise point together with an ok flag that is false when the
  Python code would have raised.
-/

namespace Gns3

/-- Compute servers are identified abstractly by natural numbers. -/
abbrev Server := Nat

/-- HTTP methods used by Project.get, post, put and delete. -/
inductive Method where
  | get
  | post
  | put
  | delete
deriving DecidableEq, Repr

/-- Callback references carried by an HTTP request: an abstract user-supplied
callback, the internal continuation built in _projectHTTPQuery, the bound
method _project_closed, or Python None. -/
inductive CbRef where
  | user (n : Nat)
  | createdCont
  | closedCb
  | noCb
deriving DecidableEq, Repr

/-- Request bodies.  A user body is abstract; the creation body is the dict
built in _projectHTTPQuery, where pathField is the optional "path" key whose
value is the (possibly None) files directory; moveBody is the dict sent by
moveFromTemporaryToPath. -/
inductive Body where
  | emptyBody
  | userBody (n : Nat)
  | creationBody (temporary : Bool) (project_id : Option String) (pathField : Option (Option String))
  | moveBody (path : String) (temporary : Bool)
deriving DecidableEq, Repr

/-- Observable effects: an HTTP request handed to a server, and the two Qt
signals of Project. -/
inductive Event where
  | httpRequest (server : Server) (method : Method) (path : String) (body : Body) (cb : CbRef)
  | aboutToClose
  | closedSignal
deriving DecidableEq, Repr

/-- The per-object state of Project, one field per attribute assigned in
Project.__init__; inInstances records membership of this object in the
class-level set Project._project_instances. -/
structure ProjectState where
  id : Option String
  temporary : Bool
  closed : Bool
  files_dir : Option String
  type : Option String
  name : Option String
  created_servers : List Server
  inInstances : Bool
deriving DecidableEq, Repr

/-- Project.__init__: no id, not temporary, not closed, no directories, no
created servers, and the fresh object is added to _project_instances. -/
def initProject : ProjectState :=
  { id := none, temporary := false, closed := false, files_dir := none,
    type := none, name := none, created_servers := [], inInstances := true }

/-- Python set.add on the duplicate-free list model. -/
def addServer (s : Server) (l : List Server) : List Server :=
  if s ∈ l then l else l ++ [s]

/-- Python str formatting of the _id attribute: None prints as "None". -/
def fmtId : Option String → String
  | none => "None"
  | some s => s

/-- Python truthiness of the _id attribute in close(): None and the empty
string are falsy. -/
def idTruthy : Option String → Bool
  | none => false
  | some s => s != ""

/-- The closure argument data captured by functools in _projectHTTPQuery for
the creation POST: the continuation replays method, path, body and callback
on the given server. -/
structure PendingCreation where
  server : Server
  method : Method
  path : String
  body : Body
  cb : CbRef
deriving DecidableEq, Repr

/-- Second half of _projectOnServerCreated: the assignment of _files_dir from
params when the responding server is the local server L and the response
carries a "path" key. -/
def updatePath (L : Server) (pathParam : Option String) (server : Server)
    (st : ProjectState) : ProjectState :=
  if server = L then
    match pathParam with
    | some q => { st with files_dir := some q }
    | none => st
  else st

/-- Last two assignments of _projectOnServerCreated: _closed is reset and the
server is added to _created_servers. -/
def updateCreated (server : Server) (st : ProjectState) : ProjectState :=
  { st with closed := false, created_servers := addServer server st.created_servers }

/-- Tail of _projectOnServerCreated once the project id is known to be the
string i: update files_dir, reset closed, record the server as created, and
replay the original request under the project-scoped path. -/
def projectCreatedRest (L : Server) (m : Method) (pathArg : String) (b : Body)
    (cb : CbRef) (pathParam : Option String) (server : Server)
    (st : ProjectState) (i : String) : ProjectState × List Event × Bool :=
  (updateCreated server (updatePath L pathParam server st),
   [Event.httpRequest server m ("/projects/" ++ i ++ pathArg) b cb], true)

/-- Project._projectOnServerCreated.  On error the body is printed and the
method returns with no state change.  Otherwise _id is assigned from
params only when it is None; reading a missing "project_id" key raises
KeyError before any mutation (ok flag false). -/
def projectOnServerCreated (L : Server) (m : Method) (pathArg : String)
    (b : Body) (cb : CbRef) (project_idParam : Option String)
    (pathParam : Option String) (error : Bool) (server : Server)
    (st : ProjectState) : ProjectState × List Event × Bool :=
  if error then (st, [], true)
  else
    match st.id, project_idParam with
    | none, none => (st, [], false)
    | none, some pid =>
        projectCreatedRest L m pathArg b cb pathParam server { st with id := some pid } pid
    | some i, _ =>
        projectCreatedRest L m pathArg b cb pathParam server st i

/-- Project._projectHTTPQuery.  For a server not yet in _created_servers a
creation POST to /projects is issued carrying the temporary flag, the current
id (None when unknown) and, for the local server, the files directory under
the "path" key; the original request is parked as a PendingCreation.  For an
already created server, _projectOnServerCreated is invoked directly with an
empty params dict. -/
def projectHTTPQuery (L : Server) (server : Server) (m : Method)
    (pathArg : String) (cb : CbRef) (b : Body) (st : ProjectState) :
    ProjectState × List Event × Option PendingCreation × Bool :=
  if server ∉ st.created_servers then
    (st,
     [Event.httpRequest server Method.post "/projects"
        (Body.creationBody st.temporary st.id
          (if server = L then some st.files_dir else none))
        CbRef.createdCont],
     some ⟨server, m, pathArg, b, cb⟩, true)
  else
    let r := projectOnServerCreated L m pathArg b cb none none false server st
    (r.1, r.2.1, none, r.2.2)

/-- Project.get. -/
def getQuery (L : Server) (server : Server) (pathArg : String) (cb : CbRef)
    (st : ProjectState) : ProjectState × List Event × Option PendingCreation × Bool :=
  projectHTTPQuery L server Method.get pathArg cb Body.emptyBody st

/-- Project.post. -/
def postQuery (L : Server) (server : Server) (pathArg : String) (cb : CbRef)
    (b : Body) (st : ProjectState) : ProjectState × List Event × Option PendingCreation × Bool :=
  projectHTTPQuery L server Method.post pathArg cb b st

/-- Project.put. -/
def putQuery (L : Server) (server : Server) (pathArg : String) (cb : CbRef)
    (b : Body) (st : ProjectState) : ProjectState × List Event × Option PendingCreation × Bool :=
  projectHTTPQuery L server Method.put pathArg cb b st

/-- Project.delete. -/
def deleteQuery (L : Server) (server : Server) (pathArg : String) (cb : CbRef)
    (st : ProjectState) : ProjectState × List Event × Option PendingCreation × Bool :=
  projectHTTPQuery L server Method.delete pathArg cb Body.emptyBody st

/-- Project.close.  With a truthy _id the about-to-close signal is emitted and
a close POST is sent to every created server (the third component lists the
servers from which a close response is now pending).  Otherwise both signals
are emitted synchronously and _closed is set. -/
def closeProject (st : ProjectState) : ProjectState × List Event × List Server :=
  if idTruthy st.id then
    (st,
     Event.aboutToClose ::
       st.created_servers.map (fun s =>
         Event.httpRequest s Method.post ("/projects/" ++ fmtId st.id ++ "/close")
           Body.emptyBody CbRef.closedCb),
     st.created_servers)
  else
    ({ st with closed := true }, [Event.aboutToClose, Event.closedSignal], [])

/-- Project._project_closed.  The error flag only selects a print or a log
statement; the server is then removed from _created_servers unconditionally
(set.remove raises KeyError when it is absent, leaving the state unchanged:
ok flag false).  When the set empties, _closed is set, the closed signal is
emitted, and the object is removed from _project_instances (again a KeyError,
after the mutations, when it is no longer there). -/
def project_closed (error : Bool) (server : Server) (st : ProjectState) :
    ProjectState × List Event × Bool :=
  if server ∈ st.created_servers then
    let st1 := { st with created_servers := st.created_servers.erase server }
    if st1.created_servers.length = 0 then
      ({ st1 with closed := true, inInstances := false }, [Event.closedSignal], st.inInstances)
    else (st1, [], true)
  else (st, [], false)

/-- Project.commit: a commit POST to every created server, callback None. -/
def commitProject (st : ProjectState) : List Event :=
  st.created_servers.map (fun s =>
    Event.httpRequest s Method.post ("/projects/" ++ fmtId st.id ++ "/commit")
      Body.emptyBody CbRef.noCb)

/-- Project.moveFromTemporaryToPath: set the files directory, clear the
temporary flag, and send one PUT per created server. -/
def moveFromTemporaryToPath (p : String) (st : ProjectState) :
    ProjectState × List Event :=
  ({ st with files_dir := some p, temporary := false },
   st.created_servers.map (fun s =>
     Event.httpRequest s Method.put ("/projects/" ++ fmtId st.id)
       (Body.moveBody p false) CbRef.noCb))

end Gns3

namespace Gns3

/-! Basic lemmas about the operations. -/

theorem addServer_of_mem (s : Server) (l : List Server) (h : s ∈ l) :
    addServer s l = l := by
  simp [addServer, h]

theorem updatePath_created (L : Server) (pp : Option String) (sv : Server)
    (st : ProjectState) :
    (updatePath L pp sv st).created_servers = st.created_servers := by
  unfold updatePath
  split <;> (try split) <;> rfl

theorem updatePath_id (L : Server) (pp : Option String) (sv : Server)
    (st : ProjectState) : (updatePath L pp sv st).id = st.id := by
  unfold updatePath
  split <;> (try split) <;> rfl

theorem projectCreatedRest_created (L : Server) (m : Method) (pa : String)
    (b : Body) (cb : CbRef) (pp : Option String) (sv : Server)
    (st : ProjectState) (i : String) :
    (projectCreatedRest L m pa b cb pp sv st i).1.created_servers =
      addServer sv st.created_servers := by
  simp [projectCreatedRest, updateCreated, updatePath_created]

theorem projectCreatedRest_id (L : Server) (m : Method) (pa : String)
    (b : Body) (cb : CbRef) (pp : Option String) (sv : Server)
    (st : ProjectState) (i : String) :
    (projectCreatedRest L m pa b cb pp sv st i).1.id = st.id := by
  simp [projectCreatedRest, updateCreated, updatePath_id]

/-- The created-servers component after any invocation of
_projectOnServerCreated with a successful response carrying a project_id. -/
theorem projectOnServerCreated_created (L : Server) (m : Method) (pa : String)
    (b : Body) (cb : CbRef) (pid : String) (pp : Option String) (sv : Server)
    (st : ProjectState) :
    (projectOnServerCreated L m pa b cb (some pid) pp false sv st).1.created_servers =
      addServer sv st.created_servers := by
  unfold projectOnServerCreated
  cases hid : st.id <;> simp [projectCreatedRest_created, hid]

theorem projectOnServerCreated_id (L : Server) (m : Method) (pa : String)
    (b : Body) (cb : CbRef) (pid : String) (pp : Option String) (sv : Server)
    (st : ProjectState) :
    (projectOnServerCreated L m pa b cb (some pid) pp false sv st).1.id =
      some (st.id.getD pid) := by
  unfold projectOnServerCreated
  cases hid : st.id <;> simp [projectCreatedRest_id, hid]

/-- A query never changes the created-servers list. -/
theorem projectHTTPQuery_created (L : Server) (sv : Server) (m : Method)
    (pa : String) (cb : CbRef) (b : Body) (st : ProjectState) :
    (projectHTTPQuery L sv m pa cb b st).1.created_servers = st.created_servers := by
  by_cases hmem : sv ∈ st.created_servers
  · unfold projectHTTPQuery projectOnServerCreated
    cases hid : st.id <;>
      simp [hmem, hid, projectCreatedRest_created, addServer_of_mem _ _ hmem]
  · simp [projectHTTPQuery, hmem]

/-- A query never changes the project id. -/
theorem projectHTTPQuery_id (L : Server) (sv : Server) (m : Method)
    (pa : String) (cb : CbRef) (b : Body) (st : ProjectState) :
    (projectHTTPQuery L sv m pa cb b st).1.id = st.id := by
  by_cases hmem : sv ∈ st.created_servers
  · unfold projectHTTPQuery projectOnServerCreated
    cases hid : st.id <;> simp [hmem, hid, projectCreatedRest_id]
  · simp [projectHTTPQuery, hmem]

/-- The created-servers list after _project_closed is always the erasure of the
responding server, whether or not the error flag is set and whether or not the
server was present (set.remove raises before mutating when it is absent). -/
theorem project_closed_created (error : Bool) (sv : Server) (st : ProjectState) :
    (project_closed error sv st).1.created_servers = st.created_servers.erase sv := by
  unfold project_closed
  by_cases hmem : sv ∈ st.created_servers
  · simp [hmem]
    split <;> rfl
  · simp [hmem, List.erase_of_not_mem hmem]

theorem project_closed_id (error : Bool) (sv : Server) (st : ProjectState) :
    (project_closed error sv st).1.id = st.id := by
  unfold project_closed
  by_cases hmem : sv ∈ st.created_servers
  · simp [hmem]
    split <;> rfl
  · simp [hmem]

/-! Section: Claim C1 -/

/-- State used by the C1 counterexample: a project created on servers 0 and 1. -/
def stC1 : ProjectState :=
  { initProject with id := some "p1", created_servers := [0, 1] }

/-- Claim C1, counterexample.  The claim asserts that on a close response with
the error flag set the server is not removed from the created set; but
_project_closed removes the server unconditionally (the removal sits outside
the error branch), so after an error response from server 0 the server 0 is no
longer in the created set. -/
theorem project_closed_error_removes_cex :
    ¬ (0 ∈ (project_closed true 0 stC1).1.created_servers) := by decide

/-- Claim C1, amended: for every response delivered with the error flag set,
a creation response aborts with no state change, no emission and no raise;
but a close response still removes the responding server from the created set
(the resulting created list is the erasure of that server), and indeed the
error flag makes no difference at all to the state transition or emissions of
_project_closed. -/
theorem error_response_behaviour (L sv : Server) (m : Method) (pa : String)
    (b : Body) (cb : CbRef) (pid pp : Option String) (st : ProjectState) :
    projectOnServerCreated L m pa b cb pid pp true sv st = (st, [], true)
    ∧ (project_closed true sv st).1.created_servers = st.created_servers.erase sv
    ∧ project_closed true sv st = project_closed false sv st := by
  refine ⟨rfl, project_closed_created true sv st, rfl⟩

/-! Section: Claim C5 -/

/-- Claim C5: for a project whose identifier is unset (None), close()
synchronously emits the about-to-close and closed notifications, sets the
closed flag, and issues no network request (the emitted event list contains no
httpRequest and the pending-close list is empty). -/
theorem close_unset_id (st : ProjectState) (h : st.id = none) :
    closeProject st =
      ({ st with closed := true }, [Event.aboutToClose, Event.closedSignal], []) := by
  simp [closeProject, idTruthy, h]

/-- Claim C5, witness at the freshly initialised project. -/
theorem close_unset_id_witness :
    closeProject initProject =
      ({ initProject with closed := true },
       [Event.aboutToClose, Event.closedSignal], []) :=
  close_unset_id initProject rfl

/-! Section: Claim C10 -/

/-- State used by the C10 counterexample: the identifier is set to the empty
string, which is falsy in Python. -/
def stC10 : ProjectState := { initProject with id := some "" }

/-- Claim C10, counterexample.  The claim asserts that whenever the identifier
is set and the created set is empty, close() leaves the closed flag false and
never emits the closed notification.  With the identifier set to the empty
string, close() takes the uninitialised branch (if self._id is falsy), sets
_closed and emits the closed signal. -/
theorem close_empty_id_cex :
    ¬ ((closeProject stC10).1.closed = false
        ∧ Event.closedSignal ∉ (closeProject stC10).2.1) := by decide

/-- Claim C10, amended: for every project whose identifier is a non-empty
string and whose created-servers set is empty, close() emits only the
about-to-close notification, issues no network request, and leaves the state
entirely unchanged; in particular the closed flag is not set, the closed
notification is not emitted, and the project is not removed from the
process-wide live-instance set. -/
theorem close_with_id_no_created (st : ProjectState) (i : String)
    (hid : st.id = some i) (hne : i ≠ "") (hcr : st.created_servers = []) :
    closeProject st = (st, [Event.aboutToClose], []) := by
  simp [closeProject, idTruthy, hid, hne, hcr]

/-- Claim C10, witness. -/
theorem close_with_id_no_created_witness :
    closeProject { initProject with id := some "p7" } =
      ({ initProject with id := some "p7" }, [Event.aboutToClose], []) :=
  close_with_id_no_created _ "p7" rfl (by decide) rfl

/-! Section: Claim C3 -/

theorem mem_addServer (s : Server) (l : List Server) : s ∈ addServer s l := by
  unfold addServer
  by_cases h : s ∈ l <;> simp [h]

theorem updatePath_none (L : Server) (sv : Server) (st : ProjectState) :
    updatePath L none sv st = st := by
  unfold updatePath
  split <;> rfl

/-- Claim C3: (a) a get, post, put or delete aimed at a server outside the
created set leaves the state unchanged and issues exactly one creation POST to
/projects whose body carries the temporary flag, the current identifier (None
when unknown) and, exactly when the server is the local server L, the files
directory under the path key, parking the original request; (b) a successful
creation response records the server as created and replays the original
method, path, body and callback under /projects/{id}{path}; (c) for a server
already in the created set the request goes out immediately under
/projects/{id}{path} with no creation POST and nothing parked. -/
theorem lazy_creation_replay (L sv : Server) (m : Method) (pa : String)
    (b : Body) (cb : CbRef) (st : ProjectState) :
    (sv ∉ st.created_servers →
      projectHTTPQuery L sv m pa cb b st =
        (st,
         [Event.httpRequest sv Method.post "/projects"
            (Body.creationBody st.temporary st.id
              (if sv = L then some st.files_dir else none)) CbRef.createdCont],
         some ⟨sv, m, pa, b, cb⟩, true))
    ∧ (∀ pid pp,
        sv ∈ (projectOnServerCreated L m pa b cb (some pid) pp false sv st).1.created_servers
        ∧ (projectOnServerCreated L m pa b cb (some pid) pp false sv st).2.1 =
            [Event.httpRequest sv m ("/projects/" ++ (st.id.getD pid) ++ pa) b cb])
    ∧ (∀ i, st.id = some i → sv ∈ st.created_servers →
        projectHTTPQuery L sv m pa cb b st =
          ({ st with closed := false },
           [Event.httpRequest sv m ("/projects/" ++ i ++ pa) b cb], none, true)) := by
  refine ⟨fun hns => by simp [projectHTTPQuery, hns], fun pid pp => ⟨?_, ?_⟩, ?_⟩
  · rw [projectOnServerCreated_created]
    exact mem_addServer sv st.created_servers
  · unfold projectOnServerCreated
    cases hid : st.id <;> simp [hid, projectCreatedRest]
  · intro i hid hmem
    simp [projectHTTPQuery, hmem, projectOnServerCreated, hid, projectCreatedRest,
      updatePath_none, updateCreated, addServer_of_mem _ _ hmem]

/-- State used by C3 and C6 witnesses: a project already created on server 1. -/
def stA : ProjectState :=
  { initProject with id := some "abc", created_servers := [1] }

/-- Claim C3, witness: both the uncreated branch and the already-created branch
evaluated at concrete inputs. -/
theorem lazy_creation_replay_witness :
    projectHTTPQuery 0 1 Method.get "/x" (CbRef.user 7) Body.emptyBody initProject =
      (initProject,
       [Event.httpRequest 1 Method.post "/projects"
          (Body.creationBody false none none) CbRef.createdCont],
       some ⟨1, Method.get, "/x", Body.emptyBody, CbRef.user 7⟩, true)
    ∧ projectHTTPQuery 0 1 Method.get "/x" (CbRef.user 7) Body.emptyBody stA =
        ({ stA with closed := false },
         [Event.httpRequest 1 Method.get "/projects/abc/x" Body.emptyBody (CbRef.user 7)],
         none, true) := by
  constructor
  · exact ((lazy_creation_replay 0 1 Method.get "/x" Body.emptyBody (CbRef.user 7)
      initProject).1 (by decide)).trans (by decide)
  · exact ((lazy_creation_replay 0 1 Method.get "/x" Body.emptyBody (CbRef.user 7)
      stA).2.2 "abc" rfl (by decide)).trans (by decide)

/-! Section: Claim C8 -/

/-- The PUT request sent by moveFromTemporaryToPath to one server. -/
def movePutEvent (st : ProjectState) (p : String) (sv : Server) : Event :=
  Event.httpRequest sv Method.put ("/projects/" ++ fmtId st.id)
    (Body.moveBody p false) CbRef.noCb

theorem count_map_of_inj {α β : Type} [DecidableEq α] [DecidableEq β]
    (f : α → β) (hf : Function.Injective f) (l : List α) (a : α) :
    (l.map f).count (f a) = l.count a := by
  induction l with
  | nil => rfl
  | cons x t ih => simp [List.count_cons, ih, hf.eq_iff]

/-- Claim C8: moveFromTemporaryToPath p sets the files directory to p and the
temporary flag to false, changes no other field, and the emitted request list
contains exactly one PUT to /projects/{id} with body (path p, temporary false)
per server in the created set, and nothing else. -/
theorem move_spec (st : ProjectState) (p : String)
    (hnd : st.created_servers.Nodup) :
    (moveFromTemporaryToPath p st).1 = { st with files_dir := some p, temporary := false }
    ∧ (∀ sv : Server, ((moveFromTemporaryToPath p st).2).count (movePutEvent st p sv) =
        if sv ∈ st.created_servers then 1 else 0)
    ∧ (∀ e ∈ (moveFromTemporaryToPath p st).2,
        ∃ sv ∈ st.created_servers, e = movePutEvent st p sv) := by
  have hmap : (moveFromTemporaryToPath p st).2 =
      st.created_servers.map (movePutEvent st p) := rfl
  have hinj : Function.Injective (movePutEvent st p) := by
    intro x y hxy
    simpa [movePutEvent] using hxy
  refine ⟨rfl, ?_, ?_⟩
  · intro sv
    rw [hmap, count_map_of_inj _ hinj]
    by_cases hm : sv ∈ st.created_servers
    · simp [hm, List.count_eq_one_of_mem hnd hm]
    · simp [hm, List.count_eq_zero_of_not_mem hm]
  · intro e he
    rw [hmap] at he
    obtain ⟨sv, hsv, rfl⟩ := List.mem_map.mp he
    exact ⟨sv, hsv, rfl⟩

/-- State used by the C8 witness. -/
def stC8 : ProjectState :=
  { initProject with id := some "mv", created_servers := [0] }

/-- Claim C8, witness. -/
theorem move_spec_witness :
    ((moveFromTemporaryToPath "/new" stC8).2).count (movePutEvent stC8 "/new" 0) = 1 := by
  exact ((move_spec stC8 "/new" (by decide)).2.1 0).trans (by decide)

/-! Section: Claim C9 -/

/-- Claim C9: two get/post/put/delete calls aimed at the same uncreated server
with no creation response processed in between each issue their own creation
POST to /projects; the first call leaves the state unchanged, so the second
call repeats the identical creation POST (no de-duplication of in-flight
creation requests). -/
theorem duplicate_creation (L sv : Server) (m1 m2 : Method) (p1 p2 : String)
    (b1 b2 : Body) (c1 c2 : CbRef) (st : ProjectState)
    (hs : sv ∉ st.created_servers) :
    (projectHTTPQuery L sv m1 p1 c1 b1 st).1 = st
    ∧ (projectHTTPQuery L sv m1 p1 c1 b1 st).2.1 =
        [Event.httpRequest sv Method.post "/projects"
           (Body.creationBody st.temporary st.id
             (if sv = L then some st.files_dir else none)) CbRef.createdCont]
    ∧ (projectHTTPQuery L sv m2 p2 c2 b2 (projectHTTPQuery L sv m1 p1 c1 b1 st).1).2.1 =
        [Event.httpRequest sv Method.post "/projects"
           (Body.creationBody st.temporary st.id
             (if sv = L then some st.files_dir else none)) CbRef.createdCont] := by
  have h0 : (projectHTTPQuery L sv m1 p1 c1 b1 st).1 = st := by
    simp [projectHTTPQuery, hs]
  refine ⟨h0, by simp [projectHTTPQuery, hs], ?_⟩
  rw [h0]
  simp [projectHTTPQuery, hs]

/-- Claim C9, witness: two concrete calls, both emitting the creation POST. -/
theorem duplicate_creation_witness :
    (projectHTTPQuery 0 1 Method.put "/y" (CbRef.user 2) (Body.userBody 5)
       (projectHTTPQuery 0 1 Method.get "/x" (CbRef.user 1) Body.emptyBody initProject).1).2.1 =
      [Event.httpRequest 1 Method.post "/projects"
         (Body.creationBody false none none) CbRef.createdCont] := by
  exact ((duplicate_creation 0 1 Method.get Method.put "/x" "/y" Body.emptyBody
    (Body.userBody 5) (CbRef.user 1) (CbRef.user 2) initProject (by decide)).2.2).trans
    (by decide)

/-! Section: Claim C4 -/

/-- Deliver a successful close response (error flag clear) from each listed
server in turn to _project_closed, collecting the emissions. -/
def deliverSuccessCloses : List Server → ProjectState → ProjectState × List Event
  | [], st => (st, [])
  | s :: rest, st =>
    let r := project_closed false s st
    let r2 := deliverSuccessCloses rest r.1
    (r2.1, r.2.1 ++ r2.2)

theorem deliverSuccessCloses_cons (s : Server) (rest : List Server)
    (st : ProjectState) :
    deliverSuccessCloses (s :: rest) st =
      ((deliverSuccessCloses rest (project_closed false s st).1).1,
       (project_closed false s st).2.1 ++
         (deliverSuccessCloses rest (project_closed false s st).1).2) := rfl

/-- Processing a successful close response from every created server, in any
order, empties the created set, sets the closed flag, removes the project from
the live-instance set, and emits the closed signal exactly once. -/
theorem deliver_perm (l : List Server) : ∀ st : ProjectState,
    l.Perm st.created_servers → st.created_servers.Nodup → l ≠ [] →
    deliverSuccessCloses l st =
      ({ st with created_servers := [], closed := true, inInstances := false },
       [Event.closedSignal]) := by
  induction l with
  | nil => intro st _ _ hne; exact absurd rfl hne
  | cons s rest ih =>
    intro st hperm hnd hne
    have hmem : s ∈ st.created_servers := hperm.mem_iff.mp (List.mem_cons_self s rest)
    have herase : (st.created_servers.erase s).Perm rest := by
      have h := (hperm.symm).erase s
      simpa using h
    cases rest with
    | nil =>
      have h1 : st.created_servers.erase s = [] := herase.eq_nil
      simp [deliverSuccessCloses, project_closed, hmem, h1]
    | cons s2 rest2 =>
      have hlen : ¬ (st.created_servers.erase s).length = 0 := by
        rw [herase.length_eq]
        simp
      have hlen2 : ¬ st.created_servers.length - 1 = 0 := by
        rwa [List.length_erase_of_mem hmem] at hlen
      have hstep : project_closed false s st =
          ({ st with created_servers := st.created_servers.erase s }, [], true) := by
        simp [project_closed, hmem, hlen2]
      have hrec := ih { st with created_servers := st.created_servers.erase s }
        herase.symm (hnd.erase s) (by simp)
      rw [deliverSuccessCloses_cons, hstep]
      dsimp only
      rw [hrec]
      simp

/-- Claim C4: for a project with a non-empty identifier and a non-empty
created set, after close() is called and a successful close response from
every created server has been processed (in any order), the created set is
empty, closed() is true, the closed notification has been emitted exactly
once over the whole episode, and the project has been removed from the
process-wide live-instance set. -/
theorem close_all_success (st : ProjectState) (i : String) (l : List Server)
    (hid : st.id = some i) (hne : i ≠ "") (hcr : st.created_servers ≠ [])
    (hperm : l.Perm st.created_servers) (hnd : st.created_servers.Nodup) :
    (deliverSuccessCloses l (closeProject st).1).1.created_servers = []
    ∧ (deliverSuccessCloses l (closeProject st).1).1.closed = true
    ∧ (deliverSuccessCloses l (closeProject st).1).1.inInstances = false
    ∧ ((closeProject st).2.1 ++
        (deliverSuccessCloses l (closeProject st).1).2).count Event.closedSignal = 1 := by
  have hstate : (closeProject st).1 = st := by
    simp [closeProject, idTruthy, hid, hne]
  have hl : l ≠ [] := by
    intro h
    subst h
    exact hcr hperm.symm.eq_nil
  have hdel := deliver_perm l st hperm hnd hl
  rw [hstate, hdel]
  have hev : (closeProject st).2.1 =
      Event.aboutToClose ::
        st.created_servers.map (fun s =>
          Event.httpRequest s Method.post ("/projects/" ++ fmtId st.id ++ "/close")
            Body.emptyBody CbRef.closedCb) := by
    simp [closeProject, idTruthy, hid, hne]
  have hmap : Event.closedSignal ∉
      st.created_servers.map (fun s =>
        Event.httpRequest s Method.post ("/projects/" ++ fmtId st.id ++ "/close")
          Body.emptyBody CbRef.closedCb) := by
    intro h
    obtain ⟨s, _, habs⟩ := List.mem_map.mp h
    exact Event.noConfusion habs
  refine ⟨rfl, rfl, rfl, ?_⟩
  rw [hev, List.count_append]
  simp [List.count_cons, List.count_eq_zero.mpr hmap]

/-- State used by the C4 witness: created on servers 0 and 1. -/
def stC4 : ProjectState :=
  { initProject with id := some "p1", created_servers := [0, 1] }

/-- Claim C4, witness, delivering the close responses in reverse order. -/
theorem close_all_success_witness :
    (deliverSuccessCloses [1, 0] (closeProject stC4).1).1.created_servers = []
    ∧ (deliverSuccessCloses [1, 0] (closeProject stC4).1).1.closed = true
    ∧ (deliverSuccessCloses [1, 0] (closeProject stC4).1).1.inInstances = false
    ∧ ((closeProject stC4).2.1 ++
        (deliverSuccessCloses [1, 0] (closeProject stC4).1).2).count Event.closedSignal = 1 :=
  close_all_success stC4 "p1" [1, 0] rfl (by decide) (by decide) (by decide) (by decide)

/-! Section: The asynchronous transition system (claims C2 and C6)

A Sys value is one Project object together with its environment: the
responses still owed by the servers (pendingCreations for outstanding
creation POSTs, pendingCloses for outstanding close POSTs), the trace of
emitted events, and two ghost histories used only to state the invariants:
hist records, in order, which creation responses succeeded and which close
responses were processed, and pids records the project_id strings of the
successful creation responses in arrival order. -/

/-- Ghost history entries: a successful creation response from a server, or a
processed close response (successful or not) from a server. -/
inductive HEvent where
  | creationOK (server : Server)
  | closeResp (server : Server)
deriving DecidableEq, Repr

structure Sys where
  proj : ProjectState
  pendingCreations : List PendingCreation
  pendingCloses : List Server
  trace : List Event
  hist : List HEvent
  pids : List String
deriving DecidableEq, Repr

/-- The initial system: a fresh Project and a quiescent environment. -/
def initSys : Sys :=
  { proj := initProject, pendingCreations := [], pendingCloses := [],
    trace := [], hist := [], pids := [] }

/-- Actions: a user-level get/post/put/delete call, delivery of a pending
creation response (spec section 6: a successful creation response always
carries a project_id string), a close() call, delivery of a pending close
response, a commit() call, and a moveFromTemporaryToPath call. -/
inductive Act where
  | userCall (server : Server) (m : Method) (pathArg : String) (b : Body) (cb : CbRef)
  | creationResponse (idx : Nat) (error : Bool) (project_id : Option String) (pathParam : Option String)
  | closeCall
  | closeResponse (idx : Nat) (error : Bool)
  | commitCall
  | moveCall (p : String)

/-- One step of the system; none when the action is not enabled (no such
pending response, or a malformed success response without a project_id). -/
def stepF (L : Server) (a : Act) (sys : Sys) : Option Sys :=
  match a with
  | Act.userCall server m pathArg b cb =>
    let r := projectHTTPQuery L server m pathArg cb b sys.proj
    some
      { sys with
        proj := r.1,
        trace := sys.trace ++ r.2.1,
        pendingCreations := sys.pendingCreations ++ r.2.2.1.toList }
  | Act.creationResponse idx error pid pp =>
    match sys.pendingCreations[idx]? with
    | none => none
    | some pc =>
      match error, pid with
      | false, none => none
      | false, some p =>
        let r := projectOnServerCreated L pc.method pc.path pc.body pc.cb (some p) pp false pc.server sys.proj
        some
          { sys with
            proj := r.1,
            pendingCreations := sys.pendingCreations.eraseIdx idx,
            trace := sys.trace ++ r.2.1,
            hist := sys.hist ++ [HEvent.creationOK pc.server],
            pids := sys.pids ++ [p] }
      | true, _ =>
        let r := projectOnServerCreated L pc.method pc.path pc.body pc.cb pid pp true pc.server sys.proj
        some
          { sys with
            proj := r.1,
            pendingCreations := sys.pendingCreations.eraseIdx idx,
            trace := sys.trace ++ r.2.1 }
  | Act.closeCall =>
    let r := closeProject sys.proj
    some
      { sys with
        proj := r.1,
        trace := sys.trace ++ r.2.1,
        pendingCloses := sys.pendingCloses ++ r.2.2 }
  | Act.closeResponse idx error =>
    match sys.pendingCloses[idx]? with
    | none => none
    | some sv =>
      let r := project_closed error sv sys.proj
      some
        { sys with
          proj := r.1,
          pendingCloses := sys.pendingCloses.eraseIdx idx,
          trace := sys.trace ++ r.2.1,
          hist := sys.hist ++ [HEvent.closeResp sv] }
  | Act.commitCall =>
    some { sys with trace := sys.trace ++ commitProject sys.proj }
  | Act.moveCall p =>
    let r := moveFromTemporaryToPath p sys.proj
    some { sys with proj := r.1, trace := sys.trace ++ r.2 }

/-- Reachability from the fresh Project under an arbitrary interleaving of
calls and response deliveries. -/
inductive Reachable (L : Server) : Sys → Prop where
  | init : Reachable L initSys
  | step (a : Act) (s t : Sys) : Reachable L s → stepF L a s = some t → Reachable L t

/-- Whether, according to the ghost history, the most recent relevant event
for server sv is a successful creation response (true) rather than a
processed close response or nothing (false). -/
def activeIn (sv : Server) (hist : List HEvent) : Bool :=
  hist.foldl
    (fun acc e =>
      match e with
      | HEvent.creationOK t => if t = sv then true else acc
      | HEvent.closeResp t => if t = sv then false else acc)
    false

theorem activeIn_append_creationOK (sv t : Server) (h : List HEvent) :
    activeIn sv (h ++ [HEvent.creationOK t]) =
      if t = sv then true else activeIn sv h := by
  simp [activeIn, List.foldl_append]

theorem activeIn_append_closeResp (sv t : Server) (h : List HEvent) :
    activeIn sv (h ++ [HEvent.closeResp t]) =
      if t = sv then false else activeIn sv h := by
  simp [activeIn, List.foldl_append]

theorem mem_addServer_iff (a b : Server) (l : List Server) :
    a ∈ addServer b l ↔ a = b ∨ a ∈ l := by
  unfold addServer
  by_cases h : b ∈ l
  · simp only [h, if_true]
    constructor
    · exact fun ha => Or.inr ha
    · rintro (rfl | ha)
      · exact h
      · exact ha
  · simp [h, List.mem_append, or_comm]

theorem addServer_nodup (b : Server) (l : List Server) (h : l.Nodup) :
    (addServer b l).Nodup := by
  unfold addServer
  by_cases hb : b ∈ l
  · simpa [hb] using h
  · simp [hb, List.nodup_append, h]

theorem closeProject_created (st : ProjectState) :
    (closeProject st).1.created_servers = st.created_servers := by
  unfold closeProject
  split <;> rfl

theorem closeProject_id (st : ProjectState) :
    (closeProject st).1.id = st.id := by
  unfold closeProject
  split <;> rfl

/-- In every reachable state the created-servers list is duplicate-free
(the Python attribute is a set). -/
theorem created_nodup (L : Server) (sys : Sys) (h : Reachable L sys) :
    sys.proj.created_servers.Nodup := by
  induction h with
  | init => simp [initSys, initProject]
  | step a s t hr hstep ih =>
    cases a with
    | userCall server m pathArg b cb =>
      simp only [stepF] at hstep
      injection hstep with hstep
      subst hstep
      simpa [projectHTTPQuery_created] using ih
    | creationResponse idx error pid pp =>
      simp only [stepF] at hstep
      cases hpc : s.pendingCreations[idx]? with
      | none => rw [hpc] at hstep; cases hstep
      | some pc =>
        rw [hpc] at hstep
        cases error with
        | true =>
          injection hstep with hstep
          subst hstep
          simpa [projectOnServerCreated] using ih
        | false =>
          cases pid with
          | none => cases hstep
          | some p =>
            injection hstep with hstep
            subst hstep
            simpa [projectOnServerCreated_created] using addServer_nodup pc.server _ ih
    | closeCall =>
      simp only [stepF] at hstep
      injection hstep with hstep
      subst hstep
      simpa [closeProject_created] using ih
    | closeResponse idx error =>
      simp only [stepF] at hstep
      cases hpc : s.pendingCloses[idx]? with
      | none => rw [hpc] at hstep; cases hstep
      | some sv =>
        rw [hpc] at hstep
        injection hstep with hstep
        subst hstep
        simpa [project_closed_created] using ih.erase sv
    | commitCall =>
      simp only [stepF] at hstep
      injection hstep with hstep
      subst hstep
      exact ih
    | moveCall p =>
      simp only [stepF] at hstep
      injection hstep with hstep
      subst hstep
      exact ih

/-! Section: Claim C2 -/

/-- Claim C2: in every reachable state, a server is a member of the
created-servers set if and only if a creation request to that server has
succeeded (a successful creation response was processed) and no close
response from that server has been processed since — the ghost history hist
records exactly those two kinds of processing, and activeIn reads off whether
the latest relevant entry for the server is a successful creation. -/
theorem created_iff_active (L : Server) (sys : Sys) (h : Reachable L sys) :
    ∀ sv : Server, sv ∈ sys.proj.created_servers ↔ activeIn sv sys.hist = true := by
  induction h with
  | init => intro sv; simp [initSys, initProject, activeIn]
  | step a s t hr hstep ih =>
    have hnd : s.proj.created_servers.Nodup := created_nodup L s hr
    cases a with
    | userCall server m pathArg b cb =>
      simp only [stepF] at hstep
      injection hstep with hstep
      subst hstep
      intro sv
      simpa [projectHTTPQuery_created] using ih sv
    | creationResponse idx error pid pp =>
      simp only [stepF] at hstep
      cases hpc : s.pendingCreations[idx]? with
      | none => rw [hpc] at hstep; cases hstep
      | some pc =>
        rw [hpc] at hstep
        cases error with
        | true =>
          injection hstep with hstep
          subst hstep
          intro sv
          simpa [projectOnServerCreated] using ih sv
        | false =>
          cases pid with
          | none => cases hstep
          | some p =>
            injection hstep with hstep
            subst hstep
            intro sv
            rw [show ({ s with
                  proj := (projectOnServerCreated L pc.method pc.path pc.body pc.cb
                    (some p) pp false pc.server s.proj).1,
                  pendingCreations := s.pendingCreations.eraseIdx idx,
                  trace := s.trace ++ (projectOnServerCreated L pc.method pc.path pc.body pc.cb
                    (some p) pp false pc.server s.proj).2.1,
                  hist := s.hist ++ [HEvent.creationOK pc.server],
                  pids := s.pids ++ [p] } : Sys).hist =
                s.hist ++ [HEvent.creationOK pc.server] from rfl]
            rw [activeIn_append_creationOK]
            simp only [projectOnServerCreated_created, mem_addServer_iff]
            by_cases heq : pc.server = sv
            · simp [heq]
            · simp only [heq, if_false]
              rw [← ih sv]
              constructor
              · rintro (rfl | hm)
                · exact absurd rfl heq
                · exact hm
              · exact fun hm => Or.inr hm
    | closeCall =>
      simp only [stepF] at hstep
      injection hstep with hstep
      subst hstep
      intro sv
      simpa [closeProject_created] using ih sv
    | closeResponse idx error =>
      simp only [stepF] at hstep
      cases hpc : s.pendingCloses[idx]? with
      | none => rw [hpc] at hstep; cases hstep
      | some sv0 =>
        rw [hpc] at hstep
        injection hstep with hstep
        subst hstep
        intro sv
        rw [show ({ s with
              proj := (project_closed error sv0 s.proj).1,
              pendingCloses := s.pendingCloses.eraseIdx idx,
              trace := s.trace ++ (project_closed error sv0 s.proj).2.1,
              hist := s.hist ++ [HEvent.closeResp sv0] } : Sys).hist =
            s.hist ++ [HEvent.closeResp sv0] from rfl]
        rw [activeIn_append_closeResp]
        simp only [project_closed_created, hnd.mem_erase_iff]
        by_cases heq : sv0 = sv
        · simp [heq]
        · simp only [heq, if_false]
          rw [← ih sv]
          constructor
          · exact fun hm => hm.2
          · exact fun hm => ⟨fun hc => heq hc.symm, hm⟩
    | commitCall =>
      simp only [stepF] at hstep
      injection hstep with hstep
      subst hstep
      intro sv
      exact ih sv
    | moveCall p =>
      simp only [stepF] at hstep
      injection hstep with hstep
      subst hstep
      intro sv
      exact ih sv

/-! Section: Claim C6 -/

/-- Claim C6: in every reachable state the project identifier equals the
project_id carried by the first successful creation response processed so far
(and is None when no creation response has succeeded yet).  Hence once a
successful creation response carrying "abc" is processed first, id() returns
"abc" after every subsequent operation and later creation responses never
overwrite it. -/
theorem id_first_assignment (L : Server) (sys : Sys) (h : Reachable L sys) :
    sys.proj.id = sys.pids.head? := by
  induction h with
  | init => rfl
  | step a s t hr hstep ih =>
    cases a with
    | userCall server m pathArg b cb =>
      simp only [stepF] at hstep
      injection hstep with hstep
      subst hstep
      simpa [projectHTTPQuery_id] using ih
    | creationResponse idx error pid pp =>
      simp only [stepF] at hstep
      cases hpc : s.pendingCreations[idx]? with
      | none => rw [hpc] at hstep; cases hstep
      | some pc =>
        rw [hpc] at hstep
        cases error with
        | true =>
          injection hstep with hstep
          subst hstep
          simpa [projectOnServerCreated] using ih
        | false =>
          cases pid with
          | none => cases hstep
          | some p =>
            injection hstep with hstep
            subst hstep
            show (projectOnServerCreated L pc.method pc.path pc.body pc.cb
              (some p) pp false pc.server s.proj).1.id = (s.pids ++ [p]).head?
            rw [projectOnServerCreated_id]
            cases hid : s.proj.id with
            | none =>
              have hnil : s.pids = [] := by
                rw [hid] at ih
                exact List.head?_eq_none_iff.mp ih.symm
              simp [hnil]
            | some i =>
              rw [hid] at ih
              cases hp : s.pids with
              | nil => rw [hp] at ih; cases ih
              | cons a tl =>
                rw [hp] at ih
                simp only [List.head?] at ih
                simp [ih, Option.getD]
    | closeCall =>
      simp only [stepF] at hstep
      injection hstep with hstep
      subst hstep
      simpa [closeProject_id] using ih
    | closeResponse idx error =>
      simp only [stepF] at hstep
      cases hpc : s.pendingCloses[idx]? with
      | none => rw [hpc] at hstep; cases hstep
      | some sv0 =>
        rw [hpc] at hstep
        injection hstep with hstep
        subst hstep
        simpa [project_closed_id] using ih
    | commitCall =>
      simp only [stepF] at hstep
      injection hstep with hstep
      subst hstep
      exact ih
    | moveCall p =>
      simp only [stepF] at hstep
      injection hstep with hstep
      subst hstep
      exact ih

/-! Section: Witness states for C2 and C6 -/

/-- System after one GET aimed at uncreated server 0 (local server is 1). -/
def sysW1 : Sys :=
  { proj := initProject,
    pendingCreations := [⟨0, Method.get, "/x", Body.emptyBody, CbRef.user 7⟩],
    pendingCloses := [],
    trace := [Event.httpRequest 0 Method.post "/projects"
      (Body.creationBody false none none) CbRef.createdCont],
    hist := [], pids := [] }

/-- System after the creation response carrying project_id "abc" arrived. -/
def sysW2 : Sys :=
  { proj := { id := some "abc", temporary := false, closed := false,
              files_dir := none, type := none, name := none,
              created_servers := [0], inInstances := true },
    pendingCreations := [],
    pendingCloses := [],
    trace := [Event.httpRequest 0 Method.post "/projects"
        (Body.creationBody false none none) CbRef.createdCont,
      Event.httpRequest 0 Method.get "/projects/abc/x" Body.emptyBody (CbRef.user 7)],
    hist := [HEvent.creationOK 0], pids := ["abc"] }

theorem sysW2_reachable : Reachable 1 sysW2 :=
  Reachable.step (Act.creationResponse 0 false (some "abc") none) sysW1 sysW2
    (Reachable.step (Act.userCall 0 Method.get "/x" Body.emptyBody (CbRef.user 7))
      initSys sysW1 Reachable.init (by decide))
    (by decide)

/-- Claim C2, witness: the invariant evaluated at the concrete reachable state
sysW2 yields that server 0 is in the created set. -/
theorem created_iff_active_witness : 0 ∈ sysW2.proj.created_servers :=
  (created_iff_active 1 sysW2 sysW2_reachable 0).mpr (by decide)

/-- Claim C6, witness: in the concrete reachable state sysW2 the identifier is
the first successful response's project_id. -/
theorem id_first_assignment_witness : sysW2.proj.id = some "abc" :=
  (id_first_assignment 1 sysW2 sysW2_reachable).trans (by decide)

/-! Section: Path-string model (claim C7)

Character-list embeddings of the Python functions used by topologyFile and
setTopologyFile: posixpath.join, posixpath.dirname, posixpath.basename and
str.replace(".gns3", ""). -/

/-- The character pattern of the extension ".gns3". -/
def gpat : List Char := ['.', 'g', 'n', 's', '3']

/-- Whether the pattern p is an initial segment of l. -/
def headMatches : List Char → List Char → Bool
  | [], _ => true
  | _ :: _, [] => false
  | p :: ps, c :: cs => p == c && headMatches ps cs

/-- Python str.replace(".gns3", ""): scan left to right, removing each
non-overlapping occurrence of the five pattern characters. -/
def removeGns3 (l : List Char) : List Char :=
  match l with
  | [] => []
  | c :: cs =>
    if headMatches gpat (c :: cs) then removeGns3 (cs.drop 4)
    else c :: removeGns3 cs
termination_by l.length
decreasing_by
  · simp only [List.length_cons, List.length_drop]
    omega
  · simp only [List.length_cons]
    omega

/-- Decidable occurrence test for the ".gns3" pattern inside l. -/
def hasG3B (l : List Char) : Bool :=
  (List.range (l.length + 1)).any fun i => headMatches gpat (l.drop i)

/-- posixpath.join(a, b) restricted to two arguments: if b is absolute it
wins; otherwise b is appended to a, inserting a separator unless a is empty
or already ends with one. -/
def pathJoinChars (a b : List Char) : List Char :=
  if b.take 1 = ['/'] then b
  else if a = [] ∨ a.getLast? = some '/' then a ++ b
  else a ++ '/' :: b

/-- posixpath.basename: everything after the last separator. -/
def basenameChars (l : List Char) : List Char :=
  (l.reverse.takeWhile fun c => c != '/').reverse

/-- str.rstrip("/") on the head part, used by posixpath.dirname. -/
def stripTrailingSlashes (l : List Char) : List Char :=
  (l.reverse.dropWhile fun c => c == '/').reverse

/-- posixpath.dirname: the part before the basename, with trailing separators
stripped unless the head consists only of separators. -/
def dirnameChars (l : List Char) : List Char :=
  let head := l.take (l.length - (basenameChars l).length)
  if head ≠ [] ∧ head.any (fun c => c != '/') then stripTrailingSlashes head else head

def pathJoin (a b : String) : String := ⟨pathJoinChars a.data b.data⟩

def dirname (s : String) : String := ⟨dirnameChars s.data⟩

/-- Project.topologyFile: os.path.join(files_dir, name + ".gns3"); None when
either attribute is unset (Python would raise a TypeError). -/
def topologyFile (st : ProjectState) : Option String :=
  match st.files_dir, st.name with
  | some d, some n => some (pathJoin d (n ++ ".gns3"))
  | _, _ => none

/-- Project.setTopologyFile: files_dir from os.path.dirname, name from
os.path.basename with all ".gns3" occurrences removed. -/
def setTopologyFile (tf : String) (st : ProjectState) : ProjectState :=
  { st with
    files_dir := some (dirname tf),
    name := some ⟨removeGns3 (basenameChars tf.data)⟩ }

theorem gns3_data : (".gns3" : String).data = gpat := by decide

theorem gpat_noslash : ∀ c ∈ gpat, c ≠ '/' := by decide

theorem removeGns3_nil : removeGns3 [] = [] := by rw [removeGns3.eq_def]

theorem removeGns3_cons (c : Char) (cs : List Char) :
    removeGns3 (c :: cs) = if headMatches gpat (c :: cs) then removeGns3 (cs.drop 4)
      else c :: removeGns3 cs := by
  rw [removeGns3.eq_def]

theorem removeGns3_gpat : removeGns3 gpat = [] := by
  rw [show gpat = '.' :: ['g', 'n', 's', '3'] from rfl, removeGns3_cons]
  simp [headMatches]
  exact removeGns3_nil

theorem headMatches_iff_take (p : List Char) : ∀ l : List Char,
    headMatches p l = true ↔ l.take p.length = p := by
  induction p with
  | nil => intro l; simp [headMatches]
  | cons x ps ih =>
    intro l
    cases l with
    | nil => simp [headMatches]
    | cons y ys =>
      simp only [headMatches, List.length_cons, List.take_succ_cons,
        Bool.and_eq_true, beq_iff_eq, List.cons.injEq, ih ys]
      constructor
      · rintro ⟨rfl, h⟩; exact ⟨rfl, h⟩
      · rintro ⟨rfl, h⟩; exact ⟨rfl, h⟩

theorem headMatches_prepend (p l : List Char) : headMatches p (p ++ l) = true := by
  rw [headMatches_iff_take, List.take_left]

theorem occ_hasG3B (l : List Char) (h : ∃ a b, l = a ++ gpat ++ b) :
    hasG3B l = true := by
  obtain ⟨a, b, rfl⟩ := h
  unfold hasG3B
  rw [List.any_eq_true]
  refine ⟨a.length, ?_, ?_⟩
  · rw [List.mem_range]
    simp [List.length_append]
    omega
  · rw [List.append_assoc, List.drop_left]
    exact headMatches_prepend gpat b

theorem noStraddle (c : Char) (cs : List Char)
    (h : headMatches gpat ((c :: cs) ++ gpat) = true) :
    ∃ a b, c :: cs = a ++ gpat ++ b := by
  rw [headMatches_iff_take] at h
  by_cases hlen : gpat.length ≤ (c :: cs).length
  · rw [List.take_append_of_le_length hlen] at h
    refine ⟨[], (c :: cs).drop gpat.length, ?_⟩
    rw [List.nil_append]
    conv_lhs => rw [← List.take_append_drop gpat.length (c :: cs)]
    rw [h]
  · push_neg at hlen
    rw [List.take_append_eq_append_take,
      List.take_of_length_le (le_of_lt hlen)] at h
    exfalso
    have hdrop := congrArg (List.drop (c :: cs).length) h
    rw [List.drop_left] at hdrop
    have hk : cs.length = 0 ∨ cs.length = 1 ∨ cs.length = 2 ∨ cs.length = 3 := by
      have : (c :: cs).length < gpat.length := hlen
      simp [gpat] at this
      omega
    rcases hk with hk | hk | hk | hk <;>
      · rw [show (c :: cs).length = cs.length + 1 from rfl, hk] at hdrop
        exact absurd hdrop (by decide)

theorem removeGns3_append_gpat (l : List Char)
    (hng : ¬ ∃ a b, l = a ++ gpat ++ b) :
    removeGns3 (l ++ gpat) = l := by
  induction l with
  | nil =>
    rw [List.nil_append]
    exact removeGns3_gpat
  | cons c cs ih =>
    rw [List.cons_append, removeGns3_cons]
    have hm : headMatches gpat (c :: (cs ++ gpat)) = false := by
      cases hmm : headMatches gpat (c :: (cs ++ gpat)) with
      | false => rfl
      | true => exact absurd (noStraddle c cs (by rwa [List.cons_append])) hng
    have hng2 : ¬ ∃ a b, cs = a ++ gpat ++ b := by
      rintro ⟨a, b, hab⟩
      exact hng ⟨c :: a, b, by rw [hab]; rfl⟩
    simp only [hm, Bool.false_eq_true, if_false]
    rw [ih hng2]

theorem takeWhile_all (p : Char → Bool) (l : List Char)
    (h : ∀ c ∈ l, p c = true) : l.takeWhile p = l := by
  induction l with
  | nil => rfl
  | cons x xs ih =>
    rw [List.takeWhile_cons, h x (List.mem_cons_self x xs)]
    simp [ih (fun c hc => h c (List.mem_cons_of_mem x hc))]

theorem takeWhile_append_stop (p : Char → Bool) (xs : List Char) (y : Char)
    (ys : List Char) (hxs : ∀ c ∈ xs, p c = true) (hy : p y = false) :
    (xs ++ y :: ys).takeWhile p = xs := by
  induction xs with
  | nil => simp [List.takeWhile_cons, hy]
  | cons x t ih =>
    rw [List.cons_append, List.takeWhile_cons, hxs x (List.mem_cons_self x t)]
    simp [ih (fun c hc => hxs c (List.mem_cons_of_mem x hc))]

theorem basenameChars_noslash (s : List Char) (h : ∀ c ∈ s, c ≠ '/') :
    basenameChars s = s := by
  unfold basenameChars
  rw [takeWhile_all _ _ (by
    intro c hc
    have := h c (List.mem_reverse.mp hc)
    simpa using this)]
  exact List.reverse_reverse s

theorem basenameChars_append_sep (d s : List Char) (h : ∀ c ∈ s, c ≠ '/') :
    basenameChars (d ++ '/' :: s) = s := by
  unfold basenameChars
  rw [List.reverse_append, List.reverse_cons, List.append_assoc,
    show (['/'] ++ d.reverse) = '/' :: d.reverse from rfl,
    takeWhile_append_stop _ _ '/' _ (by
      intro c hc
      have := h c (List.mem_reverse.mp hc)
      simpa using this) (by simp)]
  exact List.reverse_reverse s

theorem basenameChars_append_allslash (d s : List Char) (hd : d ≠ [])
    (hall : ∀ c ∈ d, c = '/') (h : ∀ c ∈ s, c ≠ '/') :
    basenameChars (d ++ s) = s := by
  unfold basenameChars
  rw [List.reverse_append]
  cases hrev : d.reverse with
  | nil => exact absurd (by simpa using hrev) hd
  | cons z t =>
    have hz : z = '/' := by
      apply hall
      rw [← List.mem_reverse, hrev]
      exact List.mem_cons_self z t
    rw [hz, takeWhile_append_stop _ _ '/' _ (by
      intro c hc
      have := h c (List.mem_reverse.mp hc)
      simpa using this) (by simp)]
    exact List.reverse_reverse s

theorem take_append_cons (d : List Char) (x : Char) (s : List Char) :
    (d ++ x :: s).take (d.length + 1) = d ++ [x] := by
  induction d with
  | nil => simp
  | cons c t ih => simp [List.take_succ_cons, ih]

theorem stripTrailingSlashes_append_sep (d : List Char) (hd : d ≠ [])
    (hlast : d.getLast? ≠ some '/') :
    stripTrailingSlashes (d ++ ['/']) = d := by
  unfold stripTrailingSlashes
  rw [List.reverse_append,
    show ((['/'] : List Char).reverse ++ d.reverse) = '/' :: d.reverse from rfl,
    List.dropWhile_cons]
  simp only [beq_self_eq_true, if_true]
  cases hrev : d.reverse with
  | nil => exact absurd (by simpa using hrev) hd
  | cons z t =>
    have hdeq : d = t.reverse ++ [z] := by
      rw [← List.reverse_reverse d, hrev, List.reverse_cons]
    have hz : z ≠ '/' := by
      intro hz2
      apply hlast
      rw [hdeq, hz2, List.getLast?_concat]
    rw [List.dropWhile_cons, show (z == '/') = false by simpa using hz]
    simp only [Bool.false_eq_true, if_false]
    rw [← hrev, List.reverse_reverse]

theorem any_ne_slash_of_getLast (d : List Char) (hd : d ≠ [])
    (hlast : d.getLast? ≠ some '/') :
    (d ++ ['/']).any (fun c => c != '/') = true := by
  rw [List.any_eq_true]
  cases hrev : d.reverse with
  | nil => exact absurd (by simpa using hrev) hd
  | cons z t =>
    have hdeq : d = t.reverse ++ [z] := by
      rw [← List.reverse_reverse d, hrev, List.reverse_cons]
    have hz : z ≠ '/' := by
      intro hz2
      apply hlast
      rw [hdeq, hz2, List.getLast?_concat]
    refine ⟨z, List.mem_append_left _ ?_, by simpa using hz⟩
    rw [← List.mem_reverse, hrev]
    exact List.mem_cons_self z t

theorem dirnameChars_noslash (s : List Char) (h : ∀ c ∈ s, c ≠ '/') :
    dirnameChars s = [] := by
  unfold dirnameChars
  rw [basenameChars_noslash s h]
  simp

theorem dirnameChars_sep (d s : List Char) (hd : d ≠ [])
    (hlast : d.getLast? ≠ some '/') (hs : ∀ c ∈ s, c ≠ '/') :
    dirnameChars (d ++ '/' :: s) = d := by
  unfold dirnameChars
  rw [basenameChars_append_sep d s hs]
  have hlen : (d ++ '/' :: s).length - s.length = d.length + 1 := by
    simp [List.length_append]
    omega
  rw [hlen, take_append_cons,
    if_pos ⟨by simp, any_ne_slash_of_getLast d hd hlast⟩]
  exact stripTrailingSlashes_append_sep d hd hlast

theorem dirnameChars_allslash (d s : List Char) (hd : d ≠ [])
    (hall : ∀ c ∈ d, c = '/') (hs : ∀ c ∈ s, c ≠ '/') :
    dirnameChars (d ++ s) = d := by
  unfold dirnameChars
  rw [basenameChars_append_allslash d s hd hall hs]
  have hlen : (d ++ s).length - s.length = d.length := by
    simp [List.length_append]
  rw [hlen, List.take_left]
  have hcond : ¬ (d ≠ [] ∧ (d.any (fun c => c != '/')) = true) := by
    rintro ⟨-, hany⟩
    rw [List.any_eq_true] at hany
    obtain ⟨z, hzm, hzp⟩ := hany
    have := hall z hzm
    simp [this] at hzp
  rw [if_neg hcond]

theorem take1_ne_slash (s : List Char) (h : ∀ c ∈ s, c ≠ '/') :
    ¬ s.take 1 = ['/'] := by
  cases s with
  | nil => simp
  | cons c cs =>
    simp only [List.take_succ_cons, List.take_zero, List.cons.injEq, and_true]
    exact h c (List.mem_cons_self c cs)

/-- Joining a directory ld with a separator-free last component s, then
splitting again, recovers both parts, provided ld is empty, all separators,
or does not end with a separator. -/
theorem dirname_basename_join (ld s : List Char)
    (hdc : ld = [] ∨ (∀ c ∈ ld, c = '/') ∨ ld.getLast? ≠ some '/')
    (hs : ∀ c ∈ s, c ≠ '/') :
    dirnameChars (pathJoinChars ld s) = ld
      ∧ basenameChars (pathJoinChars ld s) = s := by
  have htake1 : ¬ s.take 1 = ['/'] := take1_ne_slash s hs
  unfold pathJoinChars
  rw [if_neg htake1]
  rcases hdc with hnil | hall | hlast
  · subst hnil
    rw [if_pos (Or.inl rfl), List.nil_append]
    exact ⟨dirnameChars_noslash s hs, basenameChars_noslash s hs⟩
  · by_cases hdn : ld = []
    · subst hdn
      rw [if_pos (Or.inl rfl), List.nil_append]
      exact ⟨dirnameChars_noslash s hs, basenameChars_noslash s hs⟩
    · have hlast2 : ld.getLast? = some '/' := by
        cases hrev : ld.reverse with
        | nil => exact absurd (by simpa using hrev) hdn
        | cons z t =>
          have hzm : z ∈ ld := by
            rw [← List.mem_reverse, hrev]
            exact List.mem_cons_self z t
          have hdeq : ld = t.reverse ++ [z] := by
            rw [← List.reverse_reverse ld, hrev, List.reverse_cons]
          rw [hdeq, List.getLast?_concat, hall z hzm]
      rw [if_pos (Or.inr hlast2)]
      exact ⟨dirnameChars_allslash ld s hdn hall hs,
        basenameChars_append_allslash ld s hdn hall hs⟩
  · by_cases hdn : ld = []
    · subst hdn
      rw [if_pos (Or.inl rfl), List.nil_append]
      exact ⟨dirnameChars_noslash s hs, basenameChars_noslash s hs⟩
    · rw [if_neg (by
        rintro (h | h)
        · exact hdn h
        · exact hlast h)]
      exact ⟨dirnameChars_sep ld s hdn hlast hs,
        basenameChars_append_sep ld s hs⟩

/-! Section: Claim C7 -/

/-- Claim C7, counterexample.  The claim asserts the round trip for every
files directory d and name n; with d ending in a separator it fails:
topologyFile would produce /a/c.gns3 from d = "/a/" and n = "c", and
setTopologyFile then derives files directory "/a", not "/a/". -/
theorem topology_roundtrip_cex :
    (setTopologyFile (pathJoin "/a/" ("c" ++ ".gns3")) initProject).files_dir = some "/a"
    ∧ ¬ (setTopologyFile (pathJoin "/a/" ("c" ++ ".gns3")) initProject).files_dir
        = some "/a/" :=
  ⟨by decide, by decide⟩

/-- Claim C7, amended: topologyFile returns exactly the posix join of the
files directory d and name + ".gns3", and setTopologyFile applied to that
path recovers filesDir = d and name = n, provided d is empty, consists only
of separators, or does not end with a separator, and n contains no separator
and no occurrence of ".gns3" (in particular "/a/b" and "c" round-trip through
"/a/b/c.gns3"); without those provisos the inverse direction can fail. -/
theorem topologyFile_roundtrip (d n : String) (st : ProjectState)
    (hd : d.data = [] ∨ (∀ c ∈ d.data, c = '/') ∨ d.data.getLast? ≠ some '/')
    (hn : ∀ c ∈ n.data, c ≠ '/')
    (hg : hasG3B n.data = false)
    (hfd : st.files_dir = some d) (hnm : st.name = some n) :
    topologyFile st = some (pathJoin d (n ++ ".gns3"))
    ∧ (setTopologyFile (pathJoin d (n ++ ".gns3")) st).files_dir = some d
    ∧ (setTopologyFile (pathJoin d (n ++ ".gns3")) st).name = some n := by
  have hsdata : (n ++ ".gns3").data = n.data ++ gpat := by
    rw [String.data_append, gns3_data]
  have hs : ∀ c ∈ n.data ++ gpat, c ≠ '/' := by
    intro c hc
    rcases List.mem_append.mp hc with hc | hc
    · exact hn c hc
    · exact gpat_noslash c hc
  have hocc : ¬ ∃ a b, n.data = a ++ gpat ++ b := by
    intro hoc
    have := occ_hasG3B n.data hoc
    rw [hg] at this
    cases this
  have hname : removeGns3 (n.data ++ gpat) = n.data :=
    removeGns3_append_gpat n.data hocc
  have hjoin : (pathJoin d (n ++ ".gns3")).data =
      pathJoinChars d.data (n.data ++ gpat) := by
    simp [pathJoin, hsdata]
  obtain ⟨hdir, hbase⟩ := dirname_basename_join d.data (n.data ++ gpat) hd hs
  refine ⟨by simp [topologyFile, hfd, hnm], ?_, ?_⟩
  · show some (dirname (pathJoin d (n ++ ".gns3"))) = some d
    unfold dirname
    rw [hjoin, hdir]
  · show some (⟨removeGns3 (basenameChars (pathJoin d (n ++ ".gns3")).data)⟩ : String)
        = some n
    rw [hjoin, hbase, hname]

/-- State used by the C7 witness. -/
def stC7 : ProjectState :=
  { initProject with files_dir := some "/a/b", name := some "c" }

/-- Claim C7, witness: the round trip through "/a/b/c.gns3". -/
theorem topologyFile_roundtrip_witness :
    topologyFile stC7 = some "/a/b/c.gns3"
    ∧ (setTopologyFile "/a/b/c.gns3" stC7).files_dir = some "/a/b"
    ∧ (setTopologyFile "/a/b/c.gns3" stC7).name = some "c" := by
  have hj : pathJoin "/a/b" ("c" ++ ".gns3") = "/a/b/c.gns3" := by decide
  obtain ⟨h1, h2, h3⟩ := topologyFile_roundtrip "/a/b" "c" stC7
    (by decide) (by decide) (by decide) rfl rfl
  rw [hj] at h1 h2 h3
  exact ⟨h1, h2, h3⟩

end Gns3
